import Mathlib

/-!
Verification development for the monthly-revenue dashboard (`src/app.py`).

The app's core is:
* `fmt_money` / `fmt_pct` — display formatters,
* `compute_cum` — running sum,
* `parse_dataframe` — validation/normalization of the raw table
  (column check, numeric coercion with NaN fallback, period-format check,
  sort by period, cumulative revenue, month number),
* the KPI block (`last`, `idxmax`, `idxmin`, `sum`) and the header
  (`date_range`) of the render script.

We embed these shallowly.  Pandas floats are modelled by `PVal`: either the
not-a-number sentinel `nan` (produced by `pd.to_numeric(errors="coerce")` on
unparseable text) or an exact decimal `num m k` denoting `m / 10^k`; this
makes round-tripping through CSV text exact and keeps everything decidable.
The source's Korean column names are kept as the string constants of the
code; record fields use English names (Lean identifiers cannot be Hangul):
`period` = 월, `revenue` = 매출액, `prior` = 전년동월, `pct` = 증감률,
`cumRevenue` = 누적매출, `monthNum` = 월번호.
-/

namespace DS

instance {ε α : Type} [DecidableEq ε] [DecidableEq α] : DecidableEq (Except ε α) :=
  fun a b =>
    match a, b with
    | .ok x, .ok y => decidable_of_iff (x = y) (by simp)
    | .error e, .error f => decidable_of_iff (e = f) (by simp)
    | .ok _, .error _ => isFalse (by simp)
    | .error _, .ok _ => isFalse (by simp)

/-- A pandas cell value: `nan` is the not-a-number sentinel produced by
failed numeric coercion; `num m k` denotes the decimal number `m / 10^k`. -/
inductive PVal where
  | nan : PVal
  | num (m : ℤ) (k : ℕ) : PVal
deriving DecidableEq

/-- Addition on values; NaN propagates (IEEE semantics of `+`). -/
def PVal.add : PVal → PVal → PVal
  | .num m1 k1, .num m2 k2 =>
      let k := max k1 k2
      .num (m1 * 10 ^ (k - k1) + m2 * 10 ^ (k - k2)) k
  | _, _ => .nan

/-- The number 0 (Python's initial `s = 0` in `compute_cum`). -/
def PVal.zero : PVal := .num 0 0

/-- Numeric strict "greater than" on values; any comparison with NaN is
false (IEEE semantics, as used by the pandas `idxmax`/`idxmin` scans). -/
def PVal.gt : PVal → PVal → Bool
  | .num m1 k1, .num m2 k2 => decide (m2 * 10 ^ k1 < m1 * 10 ^ k2)
  | _, _ => false

/-- Numeric strict "less than" on values; false when NaN is involved. -/
def PVal.ltb : PVal → PVal → Bool
  | .num m1 k1, .num m2 k2 => decide (m1 * 10 ^ k2 < m2 * 10 ^ k1)
  | _, _ => false

/-- Python `int(x)`: truncation toward zero; fails (raises) on NaN. -/
def PVal.toIntTrunc : PVal → Option ℤ
  | .nan => none
  | .num m k => some (Int.tdiv m (10 ^ k))

/-- Characters removed by Python `str.strip()` (whitespace). -/
def isPySpace (c : Char) : Bool :=
  c = ' ' || c = '\t' || c = '\n' || c = '\r' || c = '\x0b' || c = '\x0c'

/-- Python `str.strip()`: drop leading and trailing whitespace. -/
def pyStrip (s : String) : String :=
  ⟨((s.data.dropWhile isPySpace).reverse.dropWhile isPySpace).reverse⟩

/-- `.str.replace(",", "").str.replace(" ", "")`: remove every comma and
every space character (only those, not other whitespace). -/
def cleanNum (s : String) : String :=
  ⟨s.data.filter (fun c => c ≠ ',' && c ≠ ' ')⟩

/-- Numeric value of a digit character. -/
def digitVal (c : Char) : ℕ := c.toNat - 48

/-- Value of a big-endian digit-character string. -/
def digitsVal (cs : List Char) : ℕ := cs.foldl (fun a c => 10 * a + digitVal c) 0

/-- Strip an optional leading sign, reporting whether it was `-`. -/
def splitSign : List Char → Bool × List Char
  | [] => (false, [])
  | c :: rest =>
      if c = '-' then (true, rest)
      else if c = '+' then (false, rest)
      else (false, c :: rest)

/-- Digits with an optional fractional part, after the sign: the body of
the decimal-literal grammar.  Returns mantissa and number of fractional
digits. -/
def parseDecBody (neg : Bool) (cs1 : List Char) : Option (ℤ × ℕ) :=
  let ip := cs1.takeWhile Char.isDigit
  let rest := cs1.dropWhile Char.isDigit
  if rest = [] then
    if ip = [] then none
    else some ((if neg then -(digitsVal ip : ℤ) else (digitsVal ip : ℤ)), 0)
  else if rest.head? = some '.' then
    let fp := rest.tail.takeWhile Char.isDigit
    let rest2 := rest.tail.dropWhile Char.isDigit
    if rest2 = [] ∧ ¬(ip = [] ∧ fp = []) then
      let n : ℕ := digitsVal ip * 10 ^ fp.length + digitsVal fp
      some ((if neg then -(n : ℤ) else (n : ℤ)), fp.length)
    else none
  else none

/-- Decimal-literal parser modelling `pd.to_numeric` on cleaned text:
optional sign, then integer digits with an optional fractional part;
anything else fails. -/
def parseDecCore (cs : List Char) : Option (ℤ × ℕ) :=
  let sc := splitSign cs
  parseDecBody sc.1 sc.2

/-- `pd.to_numeric(s, errors="coerce")` on already-cleaned text: parse as a
number, or produce the NaN sentinel instead of raising. -/
def toNumeric (s : String) : PVal :=
  match parseDecCore s.data with
  | some mk => .num mk.1 mk.2
  | none => .nan

/-- The regex check `^\d{4}-\d{2}$`. -/
def matchYYYYMM (s : String) : Bool :=
  match s.data with
  | [a, b, c, d, e, f, g] =>
      a.isDigit && b.isDigit && c.isDigit && d.isDigit
        && e = '-' && f.isDigit && g.isDigit
  | _ => false

/-- `df["월"].str[-2:].astype(int)`: the integer value of the last two
characters of the (validated) period string. -/
def monthNoOf (s : String) : ℕ := digitsVal (s.data.drop (s.data.length - 2))

/-- `compute_cum`'s loop with running sum `s`. -/
def computeCumFrom (s : PVal) : List PVal → List PVal
  | [] => []
  | v :: vs =>
      let s2 := s.add v
      s2 :: computeCumFrom s2 vs

/-- `compute_cum(values)`: running sums, starting from 0. -/
def compute_cum (values : List PVal) : List PVal := computeCumFrom PVal.zero values

/-- A raw input row: the four expected cells, as text (the code applies
`astype(str)` before any numeric handling, so cells are modelled as the
strings that conversion yields). -/
structure RawRow where
  period : String
  revenue : String
  prior : String
  pct : String
deriving DecidableEq

/-- A raw input table: which of the four expected columns are present in
`df.columns`, plus the rows.  (Extra columns are irrelevant: the code only
reads the four named ones and recomputes every derived column.) -/
structure RawTable where
  hasPeriod : Bool
  hasRevenue : Bool
  hasPrior : Bool
  hasPct : Bool
  rows : List RawRow
deriving DecidableEq

/-- `need_cols = ["월", "매출액", "전년동월", "증감률"]`. -/
def need_cols : List String := ["월", "매출액", "전년동월", "증감률"]

/-- `c in df.columns` for the four expected names. -/
def RawTable.hasCol (t : RawTable) (c : String) : Bool :=
  (c = "월" && t.hasPeriod) || (c = "매출액" && t.hasRevenue)
    || (c = "전년동월" && t.hasPrior) || (c = "증감률" && t.hasPct)

/-- `missing = [c for c in need_cols if c not in df.columns]`. -/
def missingCols (t : RawTable) : List String :=
  need_cols.filter (fun c => !t.hasCol c)

/-- A row after numeric coercion of the three numeric columns and
whitespace-trimming of the period column (source lines 43–53). -/
structure CRow where
  period : String
  revenue : PVal
  prior : PVal
  pct : PVal
deriving DecidableEq

/-- Lines 43–53: coerce the three numeric cells, trim the period. -/
def coerceRow (r : RawRow) : CRow :=
  { period := pyStrip r.period
    revenue := toNumeric (cleanNum r.revenue)
    prior := toNumeric (cleanNum r.prior)
    pct := toNumeric (cleanNum r.pct) }

/-- A normalized row of the table `parse_dataframe` returns. -/
structure NRow where
  period : String
  revenue : PVal
  prior : PVal
  pct : PVal
  cumRevenue : PVal
  monthNum : ℕ
deriving DecidableEq

/-- Lexicographic strict comparison of character lists by code point —
Python's `<` on strings.  (Proved below to agree with Lean's `String`
order.) -/
def lexLtb : List Char → List Char → Bool
  | [], [] => false
  | [], _ :: _ => true
  | _ :: _, [] => false
  | a :: as, b :: bs =>
      if a.toNat < b.toNat then true
      else if a = b then lexLtb as bs
      else false

/-- Python's `a < b` on strings: code-point lexicographic. -/
def strLtb (a b : String) : Bool := lexLtb a.data b.data

/-- Python's `a <= b` on strings (`¬ b < a` for this total order). -/
def strLeb (a b : String) : Bool := !strLtb b a

/-- The sort key of `df.sort_values("월")`: compare period strings. -/
def crowLe (a b : CRow) : Prop := strLeb a.period b.period = true

instance : DecidableRel crowLe := fun a b =>
  inferInstanceAs (Decidable (strLeb a.period b.period = true))

/-- Assemble a normalized row from a coerced row and its cumulative value
(lines 62 and 65). -/
def mkNRow (p : CRow × PVal) : NRow :=
  { period := p.1.period, revenue := p.1.revenue, prior := p.1.prior
    pct := p.1.pct, cumRevenue := p.2, monthNum := monthNoOf p.1.period }

/-- Lines 59–65: sort by period (modelled with a stable sort), compute the
cumulative column, and derive the month number. -/
def buildRows (rows1 : List CRow) : List NRow :=
  let sorted := List.insertionSort crowLe rows1
  (sorted.zip (compute_cum (sorted.map (·.revenue)))).map mkNRow

/-- The two `ValueError`s `parse_dataframe` can raise. -/
inductive ParseError where
  | missing (cols : List String)
  | badPeriod (bad : List String)
deriving DecidableEq

/-- The f-string messages of the two errors. -/
def ParseError.message : ParseError → String
  | .missing cols => "필수 컬럼 누락: " ++ String.intercalate ", " cols
  | .badPeriod bad => "월 형식(YYYY-MM) 오류 예: " ++ String.intercalate ", " bad

/-- `parse_dataframe` (source lines 30–66): column check first, then
numeric coercion, period trimming and validation (offenders sampled with
`head(3)` in original row order, before sorting), then sort, cumulative
sum, and month number. -/
def parse_dataframe (t : RawTable) : Except ParseError (List NRow) :=
  if missingCols t = [] then
    let rows1 := t.rows.map coerceRow
    if rows1.all (fun r => matchYYYYMM r.period) then
      .ok (buildRows rows1)
    else
      .error (.badPeriod (((rows1.map (·.period)).filter (fun s => !matchYYYYMM s)).take 3))
  else
    .error (.missing (missingCols t))

/-- `Series.idxmax` scan (skipna, first occurrence of the maximum wins):
state is the current best `(index, value)`. -/
def idxmaxAux : List PVal → ℕ → Option (ℕ × PVal) → Option (ℕ × PVal)
  | [], _, best => best
  | v :: vs, i, best =>
      match v, best with
      | .nan, b => idxmaxAux vs (i + 1) b
      | w, none => idxmaxAux vs (i + 1) (some (i, w))
      | w, some (j, b) =>
          idxmaxAux vs (i + 1) (if w.gt b then some (i, w) else some (j, b))

/-- `df["매출액"].idxmax()`: index of the (first) maximum, NaN skipped;
raises (`none`) when there is no non-NaN value. -/
def idxmax (vs : List PVal) : Option ℕ := (idxmaxAux vs 0 none).map (·.1)

/-- `Series.idxmin` scan, symmetric to `idxmaxAux`. -/
def idxminAux : List PVal → ℕ → Option (ℕ × PVal) → Option (ℕ × PVal)
  | [], _, best => best
  | v :: vs, i, best =>
      match v, best with
      | .nan, b => idxminAux vs (i + 1) b
      | w, none => idxminAux vs (i + 1) (some (i, w))
      | w, some (j, b) =>
          idxminAux vs (i + 1) (if w.ltb b then some (i, w) else some (j, b))

/-- `df["매출액"].idxmin()`: index of the (first) minimum, NaN skipped. -/
def idxmin (vs : List PVal) : Option ℕ := (idxminAux vs 0 none).map (·.1)

/-- `Series.sum()` with its default `skipna=True`: NaN cells are skipped,
so the result is always a plain number (0 if nothing contributes). -/
def sumSkipna (vs : List PVal) : PVal :=
  vs.foldl (fun acc v => match v with | .nan => acc | w => acc.add w) PVal.zero

/-- Errors the render script can stop with after loading: the two
`ValueError`s from `parse_dataframe` (caught and shown), an uncaught
`IndexError` from positional indexing into an empty table, and an uncaught
`ValueError` from `idxmax`/`idxmin` on an all-NaN column.  `emptyDataset`
is the dedicated empty-input error the spec's error taxonomy describes; it
is part of the vocabulary so that we can compare the code against the
spec, and the code never produces it. -/
inductive RunError where
  | parseFail (e : ParseError)
  | indexError
  | valueError
  | emptyDataset
deriving DecidableEq

/-- The values the script derives from the normalized table: the header's
`date_range` (line 97) and the KPI block (lines 125–128). -/
structure KPIOut where
  dateRange : String × String
  lastRow : NRow
  maxIdx : ℕ
  minIdx : ℕ
  total : ℤ
deriving DecidableEq

/-- The render pipeline after data loading (lines 82–128): parse, then the
header's `date_range` (`df["월"].iloc[0]`/`iloc[-1]`, an `IndexError` on an
empty table), then `last = df.iloc[-1]`, `idxmax`, `idxmin` and
`int(df["매출액"].sum())`.  The evaluation order matches the script, so on
an empty table the failure is the header's `IndexError`, before any KPI. -/
def runPipeline (t : RawTable) : Except RunError KPIOut :=
  match parse_dataframe t with
  | .error e => .error (.parseFail e)
  | .ok df =>
      match df.head?, df.getLast? with
      | some first, some lastRow =>
          let revs := df.map (·.revenue)
          match idxmax revs, idxmin revs with
          | some mx, some mn =>
              match (sumSkipna revs).toIntTrunc with
              | some total =>
                  .ok { dateRange := (first.period, lastRow.period)
                        lastRow := lastRow, maxIdx := mx, minIdx := mn
                        total := total }
              | none => .error .valueError
          | _, _ => .error .valueError
      | _, _ => .error .indexError

/-- Little-endian base-10 digits of `n`, fuel-based so that the kernel can
evaluate it (`natDigitsRev n n = Nat.digits 10 n`, proved below). -/
def natDigitsRev : ℕ → ℕ → List ℕ
  | 0, _ => []
  | fuel + 1, n => if n = 0 then [] else n % 10 :: natDigitsRev fuel (n / 10)

/-- Big-endian digit characters of `n`, left-padded with zeros to at least
`minLen` characters. -/
def renderDigits (n minLen : ℕ) : List Char :=
  let ds := (natDigitsRev n n).map fun d => Char.ofNat (48 + d)
  (ds ++ List.replicate (minLen - ds.length) '0').reverse

/-- Decimal rendering of `num m k` with exactly `k` fractional digits (no
point when `k = 0`), as pandas writes the column to CSV text. -/
def renderNum (m : ℤ) (k : ℕ) : String :=
  let ds := renderDigits m.natAbs (k + 1)
  ⟨(if m < 0 then ['-'] else [])
      ++ (if k = 0 then ds else ds.take (ds.length - k) ++ '.' :: ds.drop (ds.length - k))⟩

/-- `str(x)` for a cell value (`str(float("nan")) = "nan"`). -/
def pyStr : PVal → String
  | .nan => "nan"
  | .num m k => renderNum m k

/-- A cell as `DataFrame.to_csv` writes it: NaN becomes the empty string. -/
def renderCell : PVal → String
  | .nan => ""
  | .num m k => renderNum m k

/-- One row of the clean-CSV export restricted to the four input columns
(the export also carries the derived columns, but `parse_dataframe`
recomputes and overwrites those, so they cannot affect re-parsing). -/
def exportRow (r : NRow) : RawRow :=
  { period := r.period, revenue := renderCell r.revenue
    prior := renderCell r.prior, pct := renderCell r.pct }

/-- The clean-CSV export (line 105) viewed as a raw table: all four
required columns present, rows rendered to text. -/
def exportTable (df : List NRow) : RawTable :=
  { hasPeriod := true, hasRevenue := true, hasPrior := true, hasPct := true
    rows := df.map exportRow }

/-- Comma-grouping of the reversed (little-endian) digit list: a comma
after every block of three digits, counting from the right. -/
def groupRev : List Char → List Char
  | [] => []
  | [c] => [c]
  | [c1, c2] => [c1, c2]
  | [c1, c2, c3] => [c1, c2, c3]
  | c1 :: c2 :: c3 :: rest => c1 :: c2 :: c3 :: ',' :: groupRev rest

/-- `f"{z:,}"` for an integer: digits grouped in threes with commas,
with a leading minus sign for negatives. -/
def fmtThousands (z : ℤ) : String :=
  ⟨(if z < 0 then ['-'] else []) ++ (groupRev (renderDigits z.natAbs 1).reverse).reverse⟩

/-- `fmt_money` (lines 12–16): try `f"{int(x):,}"`; on failure (NaN cannot
be coerced to an integer) fall back to `str(x)` without raising. -/
def fmt_money (x : PVal) : String :=
  match x.toIntTrunc with
  | some z => fmtThousands z
  | none => pyStr x

/-- Round `num / den` (with `den > 0`) to the nearest integer, ties to
even — the rounding of Python's fixed-point formatting. -/
def roundHalfEven (num den : ℕ) : ℕ :=
  let q := num / den
  let r := num % den
  if 2 * r < den then q
  else if den < 2 * r then q + 1
  else if q % 2 = 0 then q else q + 1

/-- `f"{x:.1f}"` on a number: sign, then the absolute value rounded to one
fractional digit.  (On the exact decimals of this model the double
rounding of the real float formatter agrees.) -/
def fixed1 (m : ℤ) (k : ℕ) : String :=
  let n := roundHalfEven (m.natAbs * 10) (10 ^ k)
  (if m < 0 then "-" else "") ++ Nat.repr (n / 10) ++ "." ++ Nat.repr (n % 10)

/-- `fmt_pct` (lines 18–20): `s = f"{x:.1f}%"`, then prefix `+` exactly
when `x > 0` (false for NaN, so NaN keeps no sign;
`f"{float('nan'):.1f}" = "nan"`). -/
def fmt_pct (x : PVal) : String :=
  let s :=
    match x with
    | .nan => "nan%"
    | .num m k => fixed1 m k ++ "%"
  match x with
  | .num m _ => if 0 < m then "+" ++ s else s
  | .nan => s

/-- The built-in sample (lines 69–74), with cells as `astype(str)` renders
them. -/
def SAMPLE : RawTable :=
  { hasPeriod := true, hasRevenue := true, hasPrior := true, hasPct := true
    rows := [
      ⟨"2024-01", "12000000", "10500000", "14.3"⟩,
      ⟨"2024-02", "13500000", "11200000", "20.5"⟩,
      ⟨"2024-03", "11000000", "12800000", "-14.1"⟩,
      ⟨"2024-04", "18000000", "15200000", "18.4"⟩,
      ⟨"2024-05", "21000000", "18500000", "13.5"⟩] }

/-! ### Properties of the string comparator -/

theorem char_toNat_inj {a b : Char} (h : a.toNat = b.toNat) : a = b :=
  Char.eq_of_val_eq (UInt32.eq_of_val_eq (Fin.ext h))

theorem lexLtb_irrefl : ∀ x : List Char, lexLtb x x = false
  | [] => rfl
  | a :: as => by simp [lexLtb, lexLtb_irrefl as]

theorem lexLtb_trans :
    ∀ {x y z : List Char}, lexLtb x y = true → lexLtb y z = true → lexLtb x z = true
  | [], b :: bs, c :: cs, _, _ => rfl
  | [], [], _, h1, _ => by simp [lexLtb] at h1
  | [], b :: bs, [], _, h2 => by simp [lexLtb] at h2
  | a :: as, [], _, h1, _ => by simp [lexLtb] at h1
  | a :: as, b :: bs, [], _, h2 => by simp [lexLtb] at h2
  | a :: as, b :: bs, c :: cs, h1, h2 => by
    rw [lexLtb] at h1 h2 ⊢
    by_cases hab : a.toNat < b.toNat
    · by_cases hbc : b.toNat < c.toNat
      · rw [if_pos (lt_trans hab hbc)]
      · rw [if_neg hbc] at h2
        by_cases hbc2 : b = c
        · subst hbc2; rw [if_pos hab]
        · rw [if_neg hbc2] at h2; exact absurd h2 (by simp)
    · rw [if_neg hab] at h1
      by_cases hab2 : a = b
      · subst hab2
        rw [if_pos rfl] at h1
        by_cases hac : a.toNat < c.toNat
        · rw [if_pos hac]
        · rw [if_neg hac] at h2 ⊢
          by_cases hac2 : a = c
          · subst hac2
            rw [if_pos rfl] at h2 ⊢
            exact lexLtb_trans h1 h2
          · rw [if_neg hac2] at h2; exact absurd h2 (by simp)
      · rw [if_neg hab2] at h1; exact absurd h1 (by simp)

theorem lexLtb_trichotomy : ∀ x y : List Char, lexLtb x y = true ∨ x = y ∨ lexLtb y x = true
  | [], [] => Or.inr (Or.inl rfl)
  | [], _ :: _ => Or.inl rfl
  | _ :: _, [] => Or.inr (Or.inr rfl)
  | a :: as, b :: bs => by
    rcases Nat.lt_trichotomy a.toNat b.toNat with hab | hab | hab
    · exact Or.inl (by rw [lexLtb, if_pos hab])
    · have hab2 : a = b := char_toNat_inj hab
      subst hab2
      rcases lexLtb_trichotomy as bs with h | h | h
      · exact Or.inl (by rw [lexLtb, if_neg (lt_irrefl _), if_pos rfl]; exact h)
      · exact Or.inr (Or.inl (by rw [h]))
      · exact Or.inr (Or.inr (by rw [lexLtb, if_neg (lt_irrefl _), if_pos rfl]; exact h))
    · exact Or.inr (Or.inr (by rw [lexLtb, if_pos hab]))

theorem lexLtb_asymm {x y : List Char} (h : lexLtb x y = true) : lexLtb y x = false := by
  by_contra hc
  have hyx : lexLtb y x = true := by
    cases hxy : lexLtb y x
    · exact absurd hxy hc
    · rfl
  have := lexLtb_trans h hyx
  rw [lexLtb_irrefl x] at this
  exact absurd this (by simp)

theorem lexLtb_iff_lex : ∀ {x y : List Char}, lexLtb x y = true ↔ List.Lex (· < ·) x y
  | [], [] => by
    simp only [lexLtb]
    exact ⟨fun h => by simp at h, fun h => by cases h⟩
  | [], b :: bs => ⟨fun _ => List.Lex.nil, fun _ => rfl⟩
  | a :: as, [] => by
    simp only [lexLtb]
    exact ⟨fun h => by simp at h, fun h => by cases h⟩
  | a :: as, b :: bs => by
    rw [lexLtb]
    by_cases hab : a.toNat < b.toNat
    · rw [if_pos hab]
      exact ⟨fun _ => List.Lex.rel hab, fun _ => rfl⟩
    · rw [if_neg hab]
      by_cases hab2 : a = b
      · subst hab2
        rw [if_pos rfl]
        constructor
        · intro h
          exact List.Lex.cons (lexLtb_iff_lex.mp h)
        · intro h
          cases h with
          | cons h => exact lexLtb_iff_lex.mpr h
          | rel h => exact absurd (show a.toNat < a.toNat from h) hab
      · rw [if_neg hab2]
        constructor
        · intro h; exact absurd h (by simp)
        · intro h
          cases h with
          | cons h => exact absurd rfl hab2
          | rel h => exact absurd (show a.toNat < b.toNat from h) hab

theorem strLtb_iff {a b : String} : strLtb a b = true ↔ a < b := by
  rw [String.lt_iff_toList_lt]
  exact lexLtb_iff_lex

theorem crowLe_trans {a b c : CRow} (h1 : crowLe a b) (h2 : crowLe b c) : crowLe a c := by
  unfold crowLe strLeb at h1 h2 ⊢
  simp only [Bool.not_eq_true'] at h1 h2 ⊢
  by_contra hc
  have hca : lexLtb c.period.data a.period.data = true := by
    cases hx : lexLtb c.period.data a.period.data
    · rw [strLtb, hx] at hc; exact absurd rfl hc
    · rfl
  rw [strLtb] at h1 h2
  rcases lexLtb_trichotomy a.period.data b.period.data with h | h | h
  · have := lexLtb_trans hca h
    rw [this] at h2
    exact absurd h2 (by simp)
  · rw [← h] at h2
    rw [h2] at hca
    exact absurd hca (by simp)
  · rw [h] at h1
    exact absurd h1 (by simp)

instance : IsTrans CRow crowLe := ⟨fun _ _ _ => crowLe_trans⟩

instance : IsTotal CRow crowLe :=
  ⟨fun a b => by
    unfold crowLe strLeb strLtb
    simp only [Bool.not_eq_true']
    cases hab : lexLtb b.period.data a.period.data
    · exact Or.inl rfl
    · exact Or.inr (lexLtb_asymm hab)⟩

/-! ### Structure of the parser output -/

theorem computeCumFrom_length : ∀ (vs : List PVal) (s : PVal),
    (computeCumFrom s vs).length = vs.length
  | [], _ => rfl
  | v :: vs, s => by
    simp only [computeCumFrom, List.length_cons]
    rw [computeCumFrom_length vs]

/-- Each entry of the running sum is the fold of the prefix up to it. -/
theorem computeCumFrom_getElem :
    ∀ (vs : List PVal) (s : PVal) (i : ℕ) (hi : i < vs.length),
      (computeCumFrom s vs)[i]? = some ((vs.take (i + 1)).foldl PVal.add s)
  | [], _, i, hi => absurd hi (by simp)
  | v :: vs, s, 0, _ => by simp [computeCumFrom]
  | v :: vs, s, i + 1, hi => by
    simp only [computeCumFrom, List.getElem?_cons_succ, List.take_succ_cons, List.foldl_cons]
    exact computeCumFrom_getElem vs (s.add v) i (by simpa using hi)

/-- NaN keeps the rest of the running sum NaN. -/
theorem computeCumFrom_nan : ∀ (vs : List PVal), ∀ x ∈ computeCumFrom PVal.nan vs, x = PVal.nan
  | [], x, hx => absurd hx (by simp [computeCumFrom])
  | v :: vs, x, hx => by
    have hadd : PVal.nan.add v = PVal.nan := by cases v <;> rfl
    simp only [computeCumFrom, hadd, List.mem_cons] at hx
    rcases hx with rfl | hx
    · rfl
    · exact computeCumFrom_nan vs x hx

/-- A NaN revenue poisons every later cumulative entry. -/
theorem computeCumFrom_nan_propagates :
    ∀ (vs : List PVal) (s : PVal) (i j : ℕ), i ≤ j → j < vs.length → vs[i]? = some PVal.nan →
      (computeCumFrom s vs)[j]? = some PVal.nan
  | [], _, _, j, _, hj, _ => absurd hj (by simp)
  | v :: vs, s, 0, j, _, hj, hv => by
    simp only [List.getElem?_cons_zero, Option.some.injEq] at hv
    subst hv
    have hadd : s.add PVal.nan = PVal.nan := by cases s <;> rfl
    cases j with
    | zero => simp [computeCumFrom, hadd]
    | succ j =>
        simp only [computeCumFrom, hadd, List.getElem?_cons_succ]
        have hj2 : j < vs.length := by simpa using hj
        have hmem : ∀ x ∈ computeCumFrom PVal.nan vs, x = PVal.nan := computeCumFrom_nan vs
        have hlen : j < (computeCumFrom PVal.nan vs).length := by
          rw [computeCumFrom_length]; exact hj2
        rw [List.getElem?_eq_getElem hlen]
        exact congrArg some (hmem _ (List.getElem_mem hlen))
  | v :: vs, s, i + 1, j + 1, hij, hj, hv => by
    simp only [computeCumFrom, List.getElem?_cons_succ] at hv ⊢
    exact computeCumFrom_nan_propagates vs (s.add v) i j (by omega) (by simpa using hj) hv

/-- The four data fields of a normalized row. -/
def toCRow (r : NRow) : CRow :=
  { period := r.period, revenue := r.revenue, prior := r.prior, pct := r.pct }

theorem zip_mkNRow_toCRow :
    ∀ (s : List CRow) (c : List PVal), s.length ≤ c.length →
      ((s.zip c).map mkNRow).map toCRow = s
  | [], _, _ => rfl
  | a :: s, v :: c, h => by
    simp only [List.zip_cons_cons, List.map_cons, List.cons.injEq]
    exact ⟨rfl, zip_mkNRow_toCRow s c (by simpa using h)⟩
  | a :: s, [], h => absurd h (by simp)

theorem zip_mkNRow_cum :
    ∀ (s : List CRow) (c : List PVal), c.length ≤ s.length →
      ((s.zip c).map mkNRow).map (·.cumRevenue) = c
  | _, [], _ => by simp
  | a :: s, v :: c, h => by
    simp only [List.zip_cons_cons, List.map_cons, List.cons.injEq]
    exact ⟨rfl, zip_mkNRow_cum s c (by simpa using h)⟩
  | [], v :: c, h => absurd h (by simp)

/-- The data fields of `buildRows l` are the stable sort of `l`. -/
theorem buildRows_toCRow (l : List CRow) :
    (buildRows l).map toCRow = List.insertionSort crowLe l := by
  unfold buildRows
  apply zip_mkNRow_toCRow
  rw [compute_cum, computeCumFrom_length, List.length_map]

/-- The cumulative column of `buildRows l` is the running sum of the
sorted revenue column. -/
theorem buildRows_cum (l : List CRow) :
    (buildRows l).map (·.cumRevenue) =
      compute_cum ((List.insertionSort crowLe l).map (·.revenue)) := by
  unfold buildRows
  apply zip_mkNRow_cum
  rw [compute_cum, computeCumFrom_length, List.length_map]

theorem buildRows_periods (l : List CRow) :
    (buildRows l).map (·.period) = (List.insertionSort crowLe l).map (·.period) := by
  have h := congrArg (List.map (·.period)) (buildRows_toCRow l)
  simpa [List.map_map, Function.comp] using h

theorem buildRows_revenues (l : List CRow) :
    (buildRows l).map (·.revenue) = (List.insertionSort crowLe l).map (·.revenue) := by
  have h := congrArg (List.map (·.revenue)) (buildRows_toCRow l)
  simpa [List.map_map, Function.comp] using h

/-- Every row of `buildRows l` comes from a sorted row, with the month
number recomputed from its period. -/
theorem mem_buildRows {l : List CRow} {r : NRow} (hr : r ∈ buildRows l) :
    toCRow r ∈ List.insertionSort crowLe l ∧ r.monthNum = monthNoOf r.period := by
  unfold buildRows at hr
  rcases List.mem_map.mp hr with ⟨⟨cr, v⟩, hmem, rfl⟩
  exact ⟨(List.of_mem_zip hmem).1, rfl⟩

/-! ### Decimal rendering round-trips through the parser -/

theorem charOfDigit_isDigit {d : ℕ} (hd : d < 10) :
    (Char.ofNat (48 + d)).isDigit = true := by
  interval_cases d <;> decide

theorem digitVal_charOfDigit {d : ℕ} (hd : d < 10) : digitVal (Char.ofNat (48 + d)) = d := by
  interval_cases d <;> decide

theorem isDigit_ne_markers {c : Char} (h : c.isDigit = true) :
    c ≠ ',' ∧ c ≠ ' ' ∧ c ≠ '-' ∧ c ≠ '+' ∧ c ≠ '.' := by
  refine ⟨?_, ?_, ?_, ?_, ?_⟩ <;> rintro rfl <;> simp at h

theorem isDigit_not_space {c : Char} (h : c.isDigit = true) : isPySpace c = false := by
  cases hc : isPySpace c
  · rfl
  · exfalso
    simp only [isPySpace, Bool.or_eq_true, decide_eq_true_eq] at hc
    rcases hc with ((((rfl | rfl) | rfl) | rfl) | rfl) | rfl <;> simp at h

theorem takeWhile_of_all {p : Char → Bool} :
    ∀ {l : List Char}, (∀ c ∈ l, p c = true) → l.takeWhile p = l
  | [], _ => rfl
  | c :: l, h => by
    have hc : p c = true := h c (by simp)
    have ih : l.takeWhile p = l := takeWhile_of_all fun x hx => h x (List.mem_cons_of_mem c hx)
    rw [List.takeWhile_cons, hc, if_pos rfl, ih]

theorem dropWhile_of_all {p : Char → Bool} :
    ∀ {l : List Char}, (∀ c ∈ l, p c = true) → l.dropWhile p = []
  | [], _ => rfl
  | c :: l, h => by
    have hc : p c = true := h c (by simp)
    have ih : l.dropWhile p = [] := dropWhile_of_all fun x hx => h x (List.mem_cons_of_mem c hx)
    rw [List.dropWhile_cons, hc, if_pos rfl, ih]

theorem takeWhile_append_stop {p : Char → Bool} {x : Char} (hx : p x = false) :
    ∀ {l r : List Char}, (∀ c ∈ l, p c = true) →
      (l ++ x :: r).takeWhile p = l ∧ (l ++ x :: r).dropWhile p = x :: r
  | [], r, _ => by simp [List.takeWhile_cons, List.dropWhile_cons, hx]
  | c :: l, r, h => by
    have hc : p c = true := h c (by simp)
    have ih := takeWhile_append_stop hx (l := l) (r := r) fun d hd => h d (by simp [hd])
    simp only [List.cons_append, List.takeWhile_cons, List.dropWhile_cons, hc, if_true]
    exact ⟨by rw [ih.1], by rw [ih.2]⟩

theorem natDigitsRev_eq : ∀ (fuel n : ℕ), n ≤ fuel → natDigitsRev fuel n = Nat.digits 10 n
  | 0, n, h => by
    have hn : n = 0 := by omega
    subst hn
    rw [show natDigitsRev 0 0 = [] from rfl, Nat.digits_zero]
  | fuel + 1, n, h => by
    by_cases hn : n = 0
    · subst hn
      rw [natDigitsRev, if_pos rfl, Nat.digits_zero]
    · rw [natDigitsRev, if_neg hn]
      have hdiv : n / 10 ≤ fuel := by
        have := Nat.div_lt_self (Nat.pos_of_ne_zero hn) (by norm_num : 1 < 10)
        omega
      rw [natDigitsRev_eq fuel (n / 10) hdiv]
      exact (Nat.digits_def' (by norm_num : 1 < 10) (Nat.pos_of_ne_zero hn)).symm

theorem natDigitsRev_lt {n : ℕ} : ∀ d ∈ natDigitsRev n n, d < 10 := by
  rw [natDigitsRev_eq n n le_rfl]
  exact fun d hd => Nat.digits_lt_base (by norm_num) hd

theorem digitsVal_foldl :
    ∀ (l : List Char) (a : ℕ),
      l.foldl (fun a c => 10 * a + digitVal c) a = a * 10 ^ l.length + digitsVal l
  | [], a => by simp [digitsVal]
  | c :: l, a => by
    rw [List.foldl_cons, digitsVal_foldl l (10 * a + digitVal c)]
    have h2 : digitsVal (c :: l) = digitVal c * 10 ^ l.length + digitsVal l := by
      rw [digitsVal, List.foldl_cons]
      simpa [digitsVal] using digitsVal_foldl l (10 * 0 + digitVal c)
    rw [h2]
    simp only [List.length_cons, pow_succ]
    ring

theorem digitsVal_append (l1 l2 : List Char) :
    digitsVal (l1 ++ l2) = digitsVal l1 * 10 ^ l2.length + digitsVal l2 := by
  rw [digitsVal, List.foldl_append]
  exact digitsVal_foldl l2 (digitsVal l1)

theorem digitsVal_rev_map :
    ∀ (ds : List ℕ), (∀ d ∈ ds, d < 10) →
      digitsVal ((ds.map fun d => Char.ofNat (48 + d)).reverse) = Nat.ofDigits 10 ds
  | [], _ => rfl
  | d :: ds, h => by
    have hd10 : d < 10 := h d (by simp)
    have ih := digitsVal_rev_map ds (fun x hx => h x (List.mem_cons_of_mem d hx))
    simp only [List.map_cons, List.reverse_cons]
    rw [digitsVal_append, ih, Nat.ofDigits_cons]
    have hd : digitsVal [Char.ofNat (48 + d)] = d := by
      simp [digitsVal, digitVal_charOfDigit hd10]
    rw [hd]
    simp only [List.length_singleton, pow_one]
    omega

theorem ofDigits_replicate_zero : ∀ j : ℕ, Nat.ofDigits 10 (List.replicate j 0) = 0
  | 0 => rfl
  | j + 1 => by
    rw [List.replicate_succ, Nat.ofDigits_cons, ofDigits_replicate_zero j]

/-- `renderDigits` reads back to the rendered number. -/
theorem digitsVal_renderDigits (n minLen : ℕ) : digitsVal (renderDigits n minLen) = n := by
  simp only [renderDigits]
  have hz : (List.replicate (minLen - ((natDigitsRev n n).map fun d => Char.ofNat (48 + d)).length) '0')
      = (List.replicate (minLen - ((natDigitsRev n n).map fun d => Char.ofNat (48 + d)).length) 0).map
          (fun d => Char.ofNat (48 + d)) := by
    rw [List.map_replicate]
  rw [hz, ← List.map_append, digitsVal_rev_map]
  · rw [Nat.ofDigits_append, ofDigits_replicate_zero, Nat.mul_zero, Nat.add_zero]
    rw [natDigitsRev_eq n n le_rfl, Nat.ofDigits_digits]
  · intro d hd
    rcases List.mem_append.mp hd with hd | hd
    · exact natDigitsRev_lt d hd
    · rw [List.eq_of_mem_replicate hd]; norm_num

theorem renderDigits_all_digit {n minLen : ℕ} :
    ∀ c ∈ renderDigits n minLen, c.isDigit = true := by
  intro c hc
  unfold renderDigits at hc
  rw [List.mem_reverse] at hc
  rcases List.mem_append.mp hc with hc | hc
  · rcases List.mem_map.mp hc with ⟨d, hd, rfl⟩
    exact charOfDigit_isDigit (natDigitsRev_lt d hd)
  · rw [List.eq_of_mem_replicate hc]; decide

theorem renderDigits_length (n minLen : ℕ) :
    (renderDigits n minLen).length = max (natDigitsRev n n).length minLen := by
  unfold renderDigits
  simp only [List.length_reverse, List.length_append, List.length_map, List.length_replicate]
  omega

theorem splitSign_digit_head :
    ∀ {l : List Char}, (∀ c ∈ l, c.isDigit = true) → splitSign l = (false, l)
  | [], _ => rfl
  | c :: l, h => by
    have hc := isDigit_ne_markers (h c (by simp))
    rw [splitSign, if_neg hc.2.2.1, if_neg hc.2.2.2.1]

theorem parseDecBody_digits {neg : Bool} {l : List Char} (hne : l ≠ [])
    (hd : ∀ c ∈ l, c.isDigit = true) :
    parseDecBody neg l = some ((if neg then -(digitsVal l : ℤ) else (digitsVal l : ℤ)), 0) := by
  simp only [parseDecBody]
  rw [takeWhile_of_all hd, dropWhile_of_all hd]
  simp [hne]

theorem parseDecBody_frac {neg : Bool} {ipl fpl : List Char} (hip : ipl ≠ [])
    (hipd : ∀ c ∈ ipl, c.isDigit = true) (hfpd : ∀ c ∈ fpl, c.isDigit = true) :
    parseDecBody neg (ipl ++ '.' :: fpl) =
      some ((if neg then -((digitsVal ipl * 10 ^ fpl.length + digitsVal fpl : ℕ) : ℤ)
             else ((digitsVal ipl * 10 ^ fpl.length + digitsVal fpl : ℕ) : ℤ)), fpl.length) := by
  have hsplit := takeWhile_append_stop (p := Char.isDigit) (x := '.') (by decide)
    (l := ipl) (r := fpl) hipd
  simp only [parseDecBody]
  rw [hsplit.1, hsplit.2]
  simp only [List.head?_cons, List.tail_cons]
  rw [takeWhile_of_all hfpd, dropWhile_of_all hfpd]
  simp [hip]

/-- `cleanNum` does not touch a rendered number. -/
theorem cleanNum_of_no_markers {s : String}
    (h : ∀ c ∈ s.data, c ≠ ',' ∧ c ≠ ' ') : cleanNum s = s := by
  unfold cleanNum
  have : s.data.filter (fun c => c ≠ ',' && c ≠ ' ') = s.data := by
    apply List.filter_eq_self.mpr
    intro c hc
    simp [h c hc]
  rw [this]

/-- Parsing a rendered number recovers it exactly. -/
theorem parse_renderNum (m : ℤ) (k : ℕ) :
    parseDecCore (renderNum m k).data = some (m, k) := by
  show parseDecCore ((if m < 0 then ['-'] else []) ++
      (if k = 0 then renderDigits m.natAbs (k + 1)
        else (renderDigits m.natAbs (k + 1)).take ((renderDigits m.natAbs (k + 1)).length - k) ++
          '.' :: (renderDigits m.natAbs (k + 1)).drop ((renderDigits m.natAbs (k + 1)).length - k))) =
    some (m, k)
  generalize hg : renderDigits m.natAbs (k + 1) = ds
  have hall : ∀ c ∈ ds, c.isDigit = true := by
    rw [← hg]; exact renderDigits_all_digit
  have hlen : k + 1 ≤ ds.length := by
    rw [← hg, renderDigits_length]; omega
  have hval : digitsVal ds = m.natAbs := by
    rw [← hg]; exact digitsVal_renderDigits _ _
  have hbody : ∀ neg : Bool,
      parseDecBody neg
        (if k = 0 then ds else ds.take (ds.length - k) ++ '.' :: ds.drop (ds.length - k)) =
        some ((if neg then -(m.natAbs : ℤ) else (m.natAbs : ℤ)), k) := by
    intro neg
    by_cases hk : k = 0
    · subst hk
      rw [if_pos rfl]
      rw [parseDecBody_digits (by intro hnil; rw [hnil] at hlen; simp at hlen) hall, hval]
    · rw [if_neg hk]
      have hipne : ds.take (ds.length - k) ≠ [] := by
        intro hnil
        have := congrArg List.length hnil
        simp only [List.length_take, List.length_nil] at this
        omega
      have hipd : ∀ c ∈ ds.take (ds.length - k), c.isDigit = true := fun c hc =>
        hall c (List.mem_of_mem_take hc)
      have hfpd : ∀ c ∈ ds.drop (ds.length - k), c.isDigit = true := fun c hc =>
        hall c (List.mem_of_mem_drop hc)
      rw [parseDecBody_frac hipne hipd hfpd]
      have hfl : (ds.drop (ds.length - k)).length = k := by
        rw [List.length_drop]; omega
      have hjoin : digitsVal (ds.take (ds.length - k)) * 10 ^ (ds.drop (ds.length - k)).length
          + digitsVal (ds.drop (ds.length - k)) = m.natAbs := by
        rw [← digitsVal_append, List.take_append_drop, hval]
      rw [hjoin, hfl]
  obtain ⟨d, ds2, hcons⟩ : ∃ d ds2, ds = d :: ds2 := by
    cases hc : ds with
    | nil => rw [hc] at hlen; simp at hlen
    | cons d ds2 => exact ⟨d, ds2, rfl⟩
  have hmark := isDigit_ne_markers (hall d (by rw [hcons]; simp))
  by_cases hm : m < 0
  · rw [if_pos hm, List.singleton_append]
    show parseDecBody (splitSign _).1 (splitSign _).2 = _
    have hss : splitSign ('-' ::
        (if k = 0 then ds else ds.take (ds.length - k) ++ '.' :: ds.drop (ds.length - k))) =
        (true, (if k = 0 then ds
          else ds.take (ds.length - k) ++ '.' :: ds.drop (ds.length - k))) := by
      rw [splitSign, if_pos rfl]
    rw [hss]
    show parseDecBody true
      (if k = 0 then ds else ds.take (ds.length - k) ++ '.' :: ds.drop (ds.length - k)) = _
    rw [hbody true]
    have hval2 : -(m.natAbs : ℤ) = m := by omega
    rw [if_pos rfl, hval2]
  · rw [if_neg hm, List.nil_append]
    show parseDecBody (splitSign _).1 (splitSign _).2 = _
    have hss :
        splitSign (if k = 0 then ds
            else ds.take (ds.length - k) ++ '.' :: ds.drop (ds.length - k)) =
          (false, (if k = 0 then ds
            else ds.take (ds.length - k) ++ '.' :: ds.drop (ds.length - k))) := by
      by_cases hk : k = 0
      · rw [if_pos hk, hcons, splitSign, if_neg hmark.2.2.1, if_neg hmark.2.2.2.1]
      · rw [if_neg hk]
        obtain ⟨j, hj⟩ : ∃ j, ds.length - k = j + 1 := ⟨ds.length - k - 1, by omega⟩
        rw [hj, hcons, List.take_succ_cons, List.cons_append, splitSign,
          if_neg hmark.2.2.1, if_neg hmark.2.2.2.1, ← List.cons_append,
          ← List.take_succ_cons, ← hcons, ← hj]
    rw [hss]
    show parseDecBody false
      (if k = 0 then ds else ds.take (ds.length - k) ++ '.' :: ds.drop (ds.length - k)) = _
    rw [hbody false]
    have hval2 : (m.natAbs : ℤ) = m := by omega
    rw [if_neg (by simp), hval2]

/-- Success inversion for `parse_dataframe`. -/
theorem parse_ok_iff {t : RawTable} {df : List NRow} :
    parse_dataframe t = .ok df ↔
      missingCols t = [] ∧
        (t.rows.map coerceRow).all (fun r => matchYYYYMM r.period) = true ∧
        df = buildRows (t.rows.map coerceRow) := by
  unfold parse_dataframe
  by_cases h1 : missingCols t = []
  · rw [if_pos h1]
    by_cases h2 : (t.rows.map coerceRow).all (fun r => matchYYYYMM r.period) = true
    · rw [if_pos h2]
      simp [h1, h2, eq_comm]
    · rw [if_neg h2]
      simp [h1, h2]
  · rw [if_neg h1]
    simp [h1]

/-! ### Stripping, period format, and cell round-trips -/

theorem dropWhile_eq_self_of_none {p : Char → Bool} :
    ∀ {l : List Char}, (∀ c ∈ l, p c = false) → l.dropWhile p = l
  | [], _ => rfl
  | c :: l, h => by
    rw [List.dropWhile_cons, h c (by simp), if_neg (by simp)]

theorem pyStrip_eq_self {s : String} (h : ∀ c ∈ s.data, isPySpace c = false) :
    pyStrip s = s := by
  unfold pyStrip
  rw [dropWhile_eq_self_of_none h,
    dropWhile_eq_self_of_none (fun c hc => h c (List.mem_reverse.mp hc)),
    List.reverse_reverse]

theorem matchYYYYMM_chars {s : String} (h : matchYYYYMM s = true) :
    ∀ c ∈ s.data, c.isDigit = true ∨ c = '-' := by
  unfold matchYYYYMM at h
  split at h
  · rename_i a b c d e f g heq
    simp only [Bool.and_eq_true, decide_eq_true_eq] at h
    rw [heq]
    intro x hx
    simp only [List.mem_cons, List.not_mem_nil, or_false] at hx
    rcases hx with rfl | rfl | rfl | rfl | rfl | rfl | rfl
    · exact Or.inl h.1.1.1.1.1.1
    · exact Or.inl h.1.1.1.1.1.2
    · exact Or.inl h.1.1.1.1.2
    · exact Or.inl h.1.1.1.2
    · exact Or.inr h.1.1.2
    · exact Or.inl h.1.2
    · exact Or.inl h.2
  · exact absurd h (by simp)

theorem matchYYYYMM_strip {s : String} (h : matchYYYYMM s = true) : pyStrip s = s := by
  apply pyStrip_eq_self
  intro c hc
  rcases matchYYYYMM_chars h c hc with hd | rfl
  · exact isDigit_not_space hd
  · decide

theorem digitVal_le_of_isDigit {c : Char} (h : c.isDigit = true) : digitVal c ≤ 9 := by
  have h2 : ('0' ≤ c ∧ c ≤ '9') := by
    simpa [Char.isDigit, Bool.and_eq_true] using h
  have hle : c.toNat ≤ 57 := h2.2
  have hge : 48 ≤ c.toNat := h2.1
  unfold digitVal
  omega

/-- After validation the derived month number has at most two digits: it is
any value from 0 to 99, not necessarily a calendar month. -/
theorem monthNoOf_le_99 {s : String} (h : matchYYYYMM s = true) : monthNoOf s ≤ 99 := by
  unfold matchYYYYMM at h
  split at h
  · rename_i a b c d e f g heq
    simp only [Bool.and_eq_true, decide_eq_true_eq] at h
    have hf : digitVal f ≤ 9 := digitVal_le_of_isDigit h.1.2
    have hg : digitVal g ≤ 9 := digitVal_le_of_isDigit h.2
    unfold monthNoOf
    rw [heq]
    show digitsVal [f, g] ≤ 99
    unfold digitsVal
    simp only [List.foldl_cons, List.foldl_nil]
    omega
  · exact absurd h (by simp)

theorem renderNum_chars {m : ℤ} {k : ℕ} :
    ∀ c ∈ (renderNum m k).data, c ≠ ',' ∧ c ≠ ' ' := by
  intro c hc
  have hc2 : c ∈ (if m < 0 then ['-'] else []) ++
      (if k = 0 then renderDigits m.natAbs (k + 1)
        else (renderDigits m.natAbs (k + 1)).take ((renderDigits m.natAbs (k + 1)).length - k) ++
          '.' :: (renderDigits m.natAbs (k + 1)).drop ((renderDigits m.natAbs (k + 1)).length - k)) :=
    hc
  rcases List.mem_append.mp hc2 with hc3 | hc3
  · by_cases hm : m < 0
    · rw [if_pos hm] at hc3
      simp only [List.mem_singleton] at hc3
      subst hc3
      exact ⟨by decide, by decide⟩
    · rw [if_neg hm] at hc3
      exact absurd hc3 (by simp)
  · have hdig : c.isDigit = true ∨ c = '.' := by
      by_cases hk : k = 0
      · rw [if_pos hk] at hc3
        exact Or.inl (renderDigits_all_digit c hc3)
      · rw [if_neg hk] at hc3
        rcases List.mem_append.mp hc3 with hc4 | hc4
        · exact Or.inl (renderDigits_all_digit c (List.mem_of_mem_take hc4))
        · rcases List.mem_cons.mp hc4 with rfl | hc5
          · exact Or.inr rfl
          · exact Or.inl (renderDigits_all_digit c (List.mem_of_mem_drop hc5))
    rcases hdig with hd | rfl
    · have := isDigit_ne_markers hd
      exact ⟨this.1, this.2.1⟩
    · exact ⟨by decide, by decide⟩

/-- Exported cells re-parse to themselves. -/
theorem cell_round_trip (v : PVal) : toNumeric (cleanNum (renderCell v)) = v := by
  cases v with
  | nan => rfl
  | num m k =>
      have hclean : cleanNum (renderCell (.num m k)) = renderCell (.num m k) := by
        apply cleanNum_of_no_markers
        intro c hc
        exact renderNum_chars c hc
      rw [hclean]
      show toNumeric (renderNum m k) = _
      unfold toNumeric
      rw [parse_renderNum]

/-- A NaN-skipping sum is always a plain number. -/
theorem sumSkipna_aux :
    ∀ (vs : List PVal) (m : ℤ) (k : ℕ), ∃ m2 : ℤ, ∃ k2 : ℕ,
      vs.foldl (fun acc v => match v with | .nan => acc | w => acc.add w) (PVal.num m k) =
        PVal.num m2 k2
  | [], m, k => ⟨m, k, rfl⟩
  | v :: vs, m, k => by
    rw [List.foldl_cons]
    cases v with
    | nan => exact sumSkipna_aux vs m k
    | num a b => exact sumSkipna_aux vs _ _

theorem sumSkipna_num (vs : List PVal) :
    ∃ m : ℤ, ∃ k : ℕ, sumSkipna vs = PVal.num m k :=
  sumSkipna_aux vs 0 0

theorem buildRows_length (l : List CRow) :
    (buildRows l).length = (List.insertionSort crowLe l).length := by
  unfold buildRows
  rw [List.length_map, List.length_zip, compute_cum, computeCumFrom_length, List.length_map,
    min_self]

/-- Valid input (columns present, trimmed periods well-formed) always
parses, whatever the numeric cells contain. -/
theorem parse_ok_of_valid {t : RawTable} (h1 : missingCols t = [])
    (h2 : ∀ r ∈ t.rows, matchYYYYMM (pyStrip r.period) = true) :
    parse_dataframe t = .ok (buildRows (t.rows.map coerceRow)) := by
  apply parse_ok_iff.mpr
  refine ⟨h1, ?_, rfl⟩
  rw [List.all_eq_true]
  intro r hr
  rcases List.mem_map.mp hr with ⟨rr, hrr, rfl⟩
  exact h2 rr hrr

/-! ### Concrete tables used by the claims -/

/-- The normalized table of the built-in sample. -/
def sampleNorm : List NRow := [
  ⟨"2024-01", .num 12000000 0, .num 10500000 0, .num 143 1, .num 12000000 0, 1⟩,
  ⟨"2024-02", .num 13500000 0, .num 11200000 0, .num 205 1, .num 25500000 0, 2⟩,
  ⟨"2024-03", .num 11000000 0, .num 12800000 0, .num (-141) 1, .num 36500000 0, 3⟩,
  ⟨"2024-04", .num 18000000 0, .num 15200000 0, .num 184 1, .num 54500000 0, 4⟩,
  ⟨"2024-05", .num 21000000 0, .num 18500000 0, .num 135 1, .num 75500000 0, 5⟩]

/-- A table whose revenue cell `"abc"` cannot be parsed as a number. -/
def nanRevenueTable : RawTable :=
  ⟨true, true, true, true,
    [⟨"2024-01", "abc", "1", "1"⟩, ⟨"2024-02", "5", "1", "1"⟩]⟩

/-- What `parse_dataframe` returns for `nanRevenueTable`. -/
def nanRevenueNorm : List NRow := [
  ⟨"2024-01", .nan, .num 1 0, .num 1 0, .nan, 1⟩,
  ⟨"2024-02", .num 5 0, .num 1 0, .num 1 0, .nan, 2⟩]

/-- A table whose period `"2024-13"` passes the format check although 13
is not a calendar month. -/
def month13Table : RawTable :=
  ⟨true, true, true, true, [⟨"2024-13", "1", "1", "1"⟩]⟩

/-- What `parse_dataframe` returns for `month13Table`. -/
def month13Row : NRow := ⟨"2024-13", .num 1 0, .num 1 0, .num 1 0, .num 1 0, 13⟩

/-- An input with all columns but no data rows. -/
def emptyRowsTable : RawTable := ⟨true, true, true, true, []⟩

/-! ### The claims -/

/-- C1: for every valid raw table, `cumulative_revenue` at row `i` of the
normalized table equals the sum of `revenue` over rows `0..i` inclusive in
sorted period order, the running sum starting from zero. -/
theorem C1_cumulative_prefix_sum {t : RawTable} {df : List NRow}
    (h : parse_dataframe t = .ok df) (i : ℕ) (hi : i < df.length) :
    (df.map (·.cumRevenue))[i]? =
      some (((df.map (·.revenue)).take (i + 1)).foldl PVal.add PVal.zero) := by
  obtain ⟨h1, h2, rfl⟩ := parse_ok_iff.mp h
  rw [buildRows_cum, buildRows_revenues]
  have hi2 : i < ((List.insertionSort crowLe (t.rows.map coerceRow)).map (·.revenue)).length := by
    rw [List.length_map, ← buildRows_length]
    exact hi
  exact computeCumFrom_getElem _ _ i hi2

theorem C1_witness :
    (sampleNorm.map (·.cumRevenue))[2]? =
      some (((sampleNorm.map (·.revenue)).take 3).foldl PVal.add PVal.zero) :=
  C1_cumulative_prefix_sum (t := SAMPLE) (by decide) 2 (by decide)

/-- C2: a raw table lacking required columns fails with the missing-column
`ValidationError`, whose message joins exactly the missing names with
commas in the order checked, and this happens whatever the rows contain
(the check precedes all row processing). -/
theorem C2_missing_columns (t : RawTable) (h : missingCols t ≠ []) :
    (∀ rows2 : List RawRow,
        parse_dataframe { t with rows := rows2 } = .error (.missing (missingCols t))) ∧
    missingCols t = need_cols.filter (fun c => !t.hasCol c) ∧
    (ParseError.missing (missingCols t)).message =
      "필수 컬럼 누락: " ++ String.intercalate ", " (missingCols t) := by
  refine ⟨?_, rfl, rfl⟩
  intro rows2
  have hm2 : missingCols { t with rows := rows2 } = missingCols t := rfl
  unfold parse_dataframe
  rw [hm2, if_neg h]

theorem C2_witness :
    parse_dataframe ⟨true, false, true, true,
        [⟨"2024/01", "x", "y", "z"⟩]⟩ = .error (.missing ["매출액"]) ∧
    (ParseError.missing ["매출액"]).message = "필수 컬럼 누락: 매출액" :=
  ⟨(C2_missing_columns ⟨true, false, true, true, []⟩ (by decide)).1
      [⟨"2024/01", "x", "y", "z"⟩],
    by decide⟩

/-- C3: with all columns present and some trimmed period failing the
`^\d{4}-\d{2}$` check, parsing fails with the bad-period `ValidationError`
carrying the first (up to) 3 offending trimmed values in original row
order, before sorting. -/
theorem C3_bad_period_error (t : RawTable) (h1 : missingCols t = [])
    (h2 : (t.rows.map (fun r => pyStrip r.period)).filter (fun s => !matchYYYYMM s) ≠ []) :
    parse_dataframe t =
      .error (.badPeriod
        (((t.rows.map (fun r => pyStrip r.period)).filter (fun s => !matchYYYYMM s)).take 3)) := by
  have hmap : (t.rows.map coerceRow).map (·.period) = t.rows.map (fun r => pyStrip r.period) := by
    rw [List.map_map]
    rfl
  have hall : ¬((t.rows.map coerceRow).all (fun r => matchYYYYMM r.period) = true) := by
    intro hc
    rw [List.all_eq_true] at hc
    apply h2
    rw [← hmap]
    apply List.filter_eq_nil_iff.mpr
    intro s hs
    rcases List.mem_map.mp hs with ⟨r, hr, rfl⟩
    simp [hc r hr]
  unfold parse_dataframe
  rw [if_pos h1, if_neg hall, hmap]

theorem C3_witness :
    parse_dataframe ⟨true, true, true, true, [⟨"2024/01", "1", "1", "1"⟩]⟩ =
      .error (.badPeriod ["2024/01"]) ∧ "2024/01" ∈ ["2024/01"] :=
  ⟨C3_bad_period_error ⟨true, true, true, true, [⟨"2024/01", "1", "1", "1"⟩]⟩
      (by decide) (by decide),
    by decide⟩

/-- C4 counterexample: in `nanRevenueTable` the revenue `"abc"` becomes
NaN and poisons the cumulative column, but the KPI total — pandas
`sum()`, which skips NaN — is the plain number 5, not NaN, although a NaN
revenue contributes to its input.  The claim that the sentinel flows
through the KPI total producing NaN is false on this input. -/
theorem C4_counterexample :
    parse_dataframe nanRevenueTable = .ok nanRevenueNorm ∧
    PVal.nan ∈ nanRevenueNorm.map (·.revenue) ∧
    nanRevenueNorm.map (·.cumRevenue) = [PVal.nan, PVal.nan] ∧
    sumSkipna (nanRevenueNorm.map (·.revenue)) = PVal.num 5 0 ∧
    sumSkipna (nanRevenueNorm.map (·.revenue)) ≠ PVal.nan := by decide

/-- C4 (amended): an unparseable numeric cell becomes the NaN sentinel and
parsing still succeeds (no exception); the sentinel propagates through the
cumulative running sum, poisoning every later entry; but the KPI total
(`Series.sum`, skipna) always yields a plain number, so NaN does not
propagate into the total. -/
theorem C4_nan_policy :
    (∀ t : RawTable, missingCols t = [] →
        (∀ r ∈ t.rows, matchYYYYMM (pyStrip r.period) = true) →
        parse_dataframe t = .ok (buildRows (t.rows.map coerceRow))) ∧
    (∀ (vs : List PVal) (i j : ℕ), i ≤ j → j < vs.length → vs[i]? = some PVal.nan →
        (compute_cum vs)[j]? = some PVal.nan) ∧
    (∀ vs : List PVal, ∃ m : ℤ, ∃ k : ℕ,
        sumSkipna vs = PVal.num m k ∧ (sumSkipna vs).toIntTrunc ≠ none) := by
  refine ⟨fun t h1 h2 => parse_ok_of_valid h1 h2,
    fun vs i j hij hj hv => computeCumFrom_nan_propagates vs PVal.zero i j hij hj hv,
    fun vs => ?_⟩
  obtain ⟨m, k, hmk⟩ := sumSkipna_num vs
  exact ⟨m, k, hmk, by rw [hmk]; simp [PVal.toIntTrunc]⟩

theorem C4_witness :
    (compute_cum [PVal.nan, PVal.num 5 0])[1]? = some PVal.nan :=
  C4_nan_policy.2.1 [PVal.nan, PVal.num 5 0] 0 1 (by decide) (by decide) (by decide)

/-- C5: for every valid raw table with pairwise-distinct (trimmed)
periods, the period column of the normalized table is strictly increasing
in lexicographic string order. -/
theorem C5_periods_strictly_increasing {t : RawTable} {df : List NRow}
    (h : parse_dataframe t = .ok df)
    (hnd : (t.rows.map (fun r => pyStrip r.period)).Nodup) :
    (df.map (·.period)).Pairwise (· < ·) := by
  obtain ⟨h1, h2, rfl⟩ := parse_ok_iff.mp h
  rw [buildRows_periods]
  have hsorted : List.Pairwise crowLe (List.insertionSort crowLe (t.rows.map coerceRow)) :=
    List.sorted_insertionSort crowLe _
  have hle : ((List.insertionSort crowLe (t.rows.map coerceRow)).map (·.period)).Pairwise
      (fun a b : String => strLeb a b = true) :=
    List.Pairwise.map _ (fun a b hab => hab) hsorted
  have hperm : List.Perm ((List.insertionSort crowLe (t.rows.map coerceRow)).map (·.period))
      (t.rows.map (fun r => pyStrip r.period)) := by
    have hp := (List.perm_insertionSort crowLe (t.rows.map coerceRow)).map (·.period)
    rw [List.map_map] at hp
    exact hp
  have hnd2 : ((List.insertionSort crowLe (t.rows.map coerceRow)).map (·.period)).Nodup :=
    hperm.nodup_iff.mpr hnd
  refine (hle.and hnd2).imp ?_
  intro a b hab
  obtain ⟨hle2, hne⟩ := hab
  rcases lexLtb_trichotomy a.data b.data with h3 | h3 | h3
  · exact strLtb_iff.mp h3
  · have heq : a = b := by
      cases a
      cases b
      exact congrArg String.mk h3
    exact absurd heq hne
  · rw [strLeb, strLtb] at hle2
    rw [h3] at hle2
    exact absurd hle2 (by simp)

theorem C5_witness : (sampleNorm.map (·.period)).Pairwise (· < ·) :=
  C5_periods_strictly_increasing (t := SAMPLE) (by decide) (by decide)

/-- C6 counterexample: on a table that parses to zero rows the pipeline
does fail before the KPI block, but with a plain positional-indexing
error (`IndexError` from `df["월"].iloc[0]` in the header), not with a
dedicated `EmptyDatasetError`; no such check exists in the code. -/
theorem C6_counterexample :
    runPipeline emptyRowsTable = .error .indexError ∧
    RunError.indexError ≠ RunError.emptyDataset := by decide

/-- C6 (amended): whenever the input has its columns and no rows, the
normalized table is empty and the pipeline stops with the header's
`IndexError` — before any KPI is computed — rather than with the spec's
`EmptyDatasetError`. -/
theorem C6_empty_behaviour {t : RawTable} (h1 : missingCols t = []) (h2 : t.rows = []) :
    parse_dataframe t = .ok [] ∧
    runPipeline t = .error .indexError ∧
    RunError.indexError ≠ RunError.emptyDataset := by
  have hparse : parse_dataframe t = .ok [] := by
    apply parse_ok_iff.mpr
    refine ⟨h1, ?_, ?_⟩ <;> rw [h2] <;> rfl
  refine ⟨hparse, ?_, by simp⟩
  unfold runPipeline
  rw [hparse]
  rfl

theorem C6_witness :
    parse_dataframe emptyRowsTable = .ok [] ∧
    runPipeline emptyRowsTable = .error .indexError ∧
    RunError.indexError ≠ RunError.emptyDataset :=
  C6_empty_behaviour (t := emptyRowsTable) (by decide) rfl

/-- C7: the 5-row sample yields total 75500000, the maximum at index 4
(period 2024-05), the minimum at index 2 (period 2024-03), and cumulative
revenue 36500000 at the 2024-03 row. -/
theorem C7_sample_pipeline :
    parse_dataframe SAMPLE = .ok sampleNorm ∧
    runPipeline SAMPLE = .ok
      ⟨("2024-01", "2024-05"),
        ⟨"2024-05", .num 21000000 0, .num 18500000 0, .num 135 1, .num 75500000 0, 5⟩,
        4, 2, 75500000⟩ ∧
    (sampleNorm.map (·.period))[4]? = some "2024-05" ∧
    (sampleNorm.map (·.period))[2]? = some "2024-03" ∧
    (sampleNorm.map (·.cumRevenue))[2]? = some (PVal.num 36500000 0) := by decide

/-- C8: `fmt_pct` always renders sign, digits, one decimal digit and a
trailing `%`, with `+` exactly for positive inputs, the native minus sign
for negatives, and no sign at zero; `fmt_pct 0 = "0.0%"`,
`fmt_pct 14.3 = "+14.3%"`; and `fmt_money` falls back to the plain string
form on anything that cannot be coerced to an integer (NaN), without
raising. -/
theorem C8_formatters :
    (∀ (m : ℤ) (k : ℕ), ∃ ip fp : ℕ, fp < 10 ∧
        fmt_pct (.num m k) =
          (if 0 < m then "+" else "") ++
            ((if m < 0 then "-" else "") ++ Nat.repr ip ++ "." ++ Nat.repr fp ++ "%")) ∧
    fmt_pct (.num 0 0) = "0.0%" ∧
    fmt_pct (.num 143 1) = "+14.3%" ∧
    (∀ x : PVal, x.toIntTrunc = none → fmt_money x = pyStr x) ∧
    fmt_money PVal.nan = "nan" := by
  refine ⟨?_, by decide, by decide, ?_, by decide⟩
  · intro m k
    refine ⟨roundHalfEven (m.natAbs * 10) (10 ^ k) / 10,
      roundHalfEven (m.natAbs * 10) (10 ^ k) % 10, Nat.mod_lt _ (by norm_num), ?_⟩
    by_cases hm : 0 < m <;> simp [fmt_pct, fixed1, hm]
  · intro x hx
    cases x with
    | nan => rfl
    | num m k => simp [PVal.toIntTrunc] at hx

theorem C8_witness : fmt_money PVal.nan = pyStr PVal.nan :=
  C8_formatters.2.2.2.1 PVal.nan rfl

/-- C9 counterexample: the period `"2024-13"` passes the format check, and
its `period_month` is 13, outside 1..12 — the claimed 1–12 range is
false. -/
theorem C9_counterexample :
    parse_dataframe month13Table = .ok [month13Row] ∧
    month13Row.monthNum = 13 ∧
    ¬(1 ≤ month13Row.monthNum ∧ month13Row.monthNum ≤ 12) := by decide

/-- C9 (amended): `period_month` is derived from the last two characters
of the period and, the format check only guaranteeing two digits, lies
between 0 and 99 — not necessarily 1..12. -/
theorem C9_month_range {t : RawTable} {df : List NRow}
    (h : parse_dataframe t = .ok df) :
    ∀ r ∈ df, r.monthNum ≤ 99 ∧ r.monthNum = monthNoOf r.period := by
  obtain ⟨h1, h2, rfl⟩ := parse_ok_iff.mp h
  intro r hr
  obtain ⟨hmem, hmn⟩ := mem_buildRows hr
  have hmem2 : toCRow r ∈ t.rows.map coerceRow :=
    (List.perm_insertionSort crowLe _).subset hmem
  have hmatch : matchYYYYMM r.period = true := by
    rw [List.all_eq_true] at h2
    exact h2 (toCRow r) hmem2
  exact ⟨hmn ▸ monthNoOf_le_99 hmatch, hmn⟩

theorem C9_witness :
    month13Row.monthNum ≤ 99 ∧ month13Row.monthNum = monthNoOf month13Row.period :=
  @C9_month_range month13Table [month13Row] (by decide) month13Row (by decide)

/-- C10: re-parsing the exported normalized table yields the same table,
with every field (including the recomputed cumulative column) equal —
normalize ∘ export is the identity on normalized tables. -/
theorem C10_round_trip {t : RawTable} {df : List NRow}
    (h : parse_dataframe t = .ok df) :
    parse_dataframe (exportTable df) = .ok df := by
  obtain ⟨h1, h2, hdf⟩ := parse_ok_iff.mp h
  have hall : ∀ r ∈ t.rows.map coerceRow, matchYYYYMM r.period = true := by
    rw [List.all_eq_true] at h2
    exact h2
  have hmatch : ∀ r ∈ df, matchYYYYMM r.period = true := by
    intro r hr
    rw [hdf] at hr
    have hmem := (mem_buildRows hr).1
    exact hall _ ((List.perm_insertionSort crowLe _).subset hmem)
  have hre : (exportTable df).rows.map coerceRow = df.map toCRow := by
    show (df.map exportRow).map coerceRow = df.map toCRow
    rw [List.map_map]
    apply List.map_congr_left
    intro r hr
    show coerceRow (exportRow r) = toCRow r
    have hper : pyStrip r.period = r.period := matchYYYYMM_strip (hmatch r hr)
    simp [coerceRow, exportRow, toCRow, hper, cell_round_trip]
  apply parse_ok_iff.mpr
  refine ⟨rfl, ?_, ?_⟩
  · rw [hre, List.all_eq_true]
    intro r hr
    rcases List.mem_map.mp hr with ⟨r0, hr0, rfl⟩
    exact hmatch r0 hr0
  · rw [hre, hdf, buildRows_toCRow]
    unfold buildRows
    rw [List.Sorted.insertionSort_eq (List.sorted_insertionSort crowLe _)]

theorem C10_witness : parse_dataframe (exportTable sampleNorm) = .ok sampleNorm :=
  C10_round_trip (t := SAMPLE) (by decide)

end DS
